import Mathlib

/-!
# Verification of `packages/scripts/update.py` (offline-install-docker)

A shallow embedding of the core logic of `DockerUpdater`:
version resolution (`resolve_static_version_for_arch`, `list_static_versions`,
`list_rootless_versions`), the retrying fetcher (`download_file`), the compose
release-asset locator (`get_compose_asset_url`), the per-architecture download
orchestrator (`download_for_architecture`), the reconciler
(`cleanup_old_versions`) and the manifest writer (`create_checksums_file`).

Network and hashing effects are modelled as explicit oracles (per-URL attempt
outcomes, the raw regex match lists extracted from the version index pages, the
release-metadata asset list, and an abstract digest function), and the mutable
run state (`download_stats`, the output directory, the event log) is threaded
explicitly through a `UState` record.  File contents are byte lists.
-/

namespace DockerUpdater

/-! ## A structural stable sort

`Python`'s `sorted` is modelled by a plain insertion sort parameterised by a
boolean `le` relation; for a transitive and total `le` its output is pairwise
`le`-ordered and a permutation of the input, which is all the source relies on.
(The elements sorted below either come from a Python `set`, whose iteration
order is unspecified, or are pairwise distinct, so stability is irrelevant.)
-/

/-- Insert `x` in front of the first element `y` with `le x y`. -/
def insertLe (le : α → α → Bool) (x : α) : List α → List α
  | [] => [x]
  | y :: t => if le x y then x :: y :: t else y :: insertLe le x t

/-- Insertion sort with respect to a boolean `le` relation. -/
def insSort (le : α → α → Bool) : List α → List α
  | [] => []
  | x :: t => insertLe le x (insSort le t)

theorem insertLe_perm (le : α → α → Bool) (x : α) (l : List α) :
    List.Perm (insertLe le x l) (x :: l) := by
  induction l with
  | nil => exact List.Perm.refl _
  | cons y t ih =>
    simp only [insertLe]
    by_cases h : le x y = true
    · rw [if_pos h]
    · rw [if_neg h]
      exact (ih.cons y).trans (List.Perm.swap x y t)

theorem insSort_perm (le : α → α → Bool) (l : List α) :
    List.Perm (insSort le l) l := by
  induction l with
  | nil => exact List.Perm.refl _
  | cons x t ih =>
    exact (insertLe_perm le x (insSort le t)).trans (ih.cons x)

theorem mem_insSort (le : α → α → Bool) {x : α} {l : List α} :
    x ∈ insSort le l ↔ x ∈ l :=
  (insSort_perm le l).mem_iff

theorem pairwise_insertLe (le : α → α → Bool)
    (total : ∀ a b, (le a b || le b a) = true)
    (trans : ∀ a b c, le a b = true → le b c = true → le a c = true)
    (x : α) {l : List α} (h : l.Pairwise (fun a b => le a b = true)) :
    (insertLe le x l).Pairwise (fun a b => le a b = true) := by
  induction l with
  | nil => simp [insertLe]
  | cons y t ih =>
    rcases List.pairwise_cons.mp h with ⟨hy, ht⟩
    simp only [insertLe]
    by_cases hxy : le x y = true
    · rw [if_pos hxy]
      refine List.pairwise_cons.mpr ⟨?_, h⟩
      intro z hz
      rcases List.mem_cons.mp hz with hz | hz
      · subst hz; exact hxy
      · exact trans x y z hxy (hy z hz)
    · rw [if_neg hxy]
      refine List.pairwise_cons.mpr ⟨?_, ih ht⟩
      intro z hz
      rcases List.mem_cons.mp ((insertLe_perm le x t).mem_iff.mp hz) with hz | hz
      · have hyx : le y x = true := by
          have htot := total x y
          cases hle : le x y
          · rw [hle] at htot
            simpa using htot
          · exact absurd hle hxy
        rw [hz]
        exact hyx
      · exact hy z hz

theorem pairwise_insSort (le : α → α → Bool)
    (total : ∀ a b, (le a b || le b a) = true)
    (trans : ∀ a b c, le a b = true → le b c = true → le a c = true)
    (l : List α) : (insSort le l).Pairwise (fun a b => le a b = true) := by
  induction l with
  | nil => simp [insSort]
  | cons x t ih => exact pairwise_insertLe le total trans x ih

/-! ## Semantic-version keys

Python: `sorted(set(versions), key=lambda v: tuple(map(int, v.split('.'))), reverse=True)`
(`update.py` lines 105, 120).  `splitOnDot` models `str.split('.')`,
`digitsVal` models `int` on the digit strings produced by the version regexes,
and `keyLt` models Python's lexicographic `<` on tuples of ints.
-/

/-- Model of Python `v.split('.')` on the character list of `v`. -/
def splitOnDot : List Char → List (List Char)
  | [] => [[]]
  | c :: t =>
    if c == '.' then [] :: splitOnDot t
    else
      match splitOnDot t with
      | [] => [[c]]
      | h :: r => (c :: h) :: r

/-- Model of Python `int` on a string of decimal digits. -/
def digitsVal (cs : List Char) : Nat :=
  cs.foldl (fun n c => n * 10 + (c.toNat - 48)) 0

/-- The sort key `tuple(map(int, v.split('.')))` of a version string. -/
def verKey (v : String) : List Nat :=
  (splitOnDot v.toList).map digitsVal

/-- Python's `<` on tuples of ints (lexicographic, componentwise numeric). -/
def keyLt : List Nat → List Nat → Bool
  | [], [] => false
  | [], _ :: _ => true
  | _ :: _, [] => false
  | a :: restA, b :: restB =>
    if a < b then true
    else if b < a then false
    else keyLt restA restB

/-- `verLt v w` holds when version `v` is strictly older than `w`
(numeric comparison of major, then minor, then patch). -/
def verLt (v w : String) : Bool :=
  keyLt (verKey v) (verKey w)

/-- Model of `sorted(set(versions), key=..., reverse=True)`:
deduplicate, then sort descending by semantic-version key. -/
def sortVersionsDesc (vs : List String) : List String :=
  insSort (fun a b => !(verLt a b)) vs.dedup

/-- `list_static_versions` (`update.py` 95-109): the raw regex matches
`docker-(\d+\.\d+\.\d+)\.tgz` over the index page are supplied by the oracle
argument `found` (an exception while fetching the index yields `found = []`);
the function deduplicates and sorts them descending by version. -/
def list_static_versions (found : List String) : List String :=
  sortVersionsDesc found

/-- `list_rootless_versions` (`update.py` 111-124): identical to
`list_static_versions` but over the matches of
`docker-rootless-extras-(\d+\.\d+\.\d+)\.tgz`. -/
def list_rootless_versions (found : List String) : List String :=
  sortVersionsDesc found

/-- `resolve_static_version_for_arch` (`update.py` 126-137).  `urlOk` is the
oracle result of `check_url_exists` on the canonical download URL of
`desired_version`; `found` is the oracle regex-match list of the index page. -/
def resolve_static_version_for_arch (urlOk : Bool) (found : List String)
    (desired_version : String) : String :=
  if urlOk then desired_version
  else
    match list_static_versions found with
    | [] => desired_version
    | fallback :: _ => fallback

/-! ### Order lemmas for `keyLt` -/

theorem keyLt_irrefl (k : List Nat) : keyLt k k = false := by
  induction k with
  | nil => rfl
  | cons a t ih => simp [keyLt, ih]

theorem keyLt_trans {a b c : List Nat} (hab : keyLt a b = true)
    (hbc : keyLt b c = true) : keyLt a c = true := by
  induction a generalizing b c with
  | nil =>
    cases b with
    | nil => simp [keyLt] at hab
    | cons y tb =>
      cases c with
      | nil => simp [keyLt] at hbc
      | cons z tc => simp [keyLt]
  | cons x ta ih =>
    cases b with
    | nil => simp [keyLt] at hab
    | cons y tb =>
      cases c with
      | nil => simp [keyLt] at hbc
      | cons z tc =>
        simp only [keyLt] at hab hbc ⊢
        rcases Nat.lt_trichotomy x y with hxy | hxy | hxy
        · rcases Nat.lt_trichotomy y z with hyz | hyz | hyz
          · simp [Nat.lt_trans hxy hyz]
          · subst hyz; simp [hxy]
          · simp [Nat.lt_asymm hyz, hyz] at hbc
        · subst hxy
          simp only [if_neg (Nat.lt_irrefl x)] at hab
          rcases Nat.lt_trichotomy x z with hxz | hxz | hxz
          · simp [hxz]
          · subst hxz
            simp only [if_neg (Nat.lt_irrefl x)] at hbc ⊢
            exact ih hab hbc
          · simp [Nat.lt_asymm hxz, hxz] at hbc
        · simp [Nat.lt_asymm hxy, hxy] at hab

theorem keyLt_conn {a b : List Nat} (hab : keyLt a b = false)
    (hba : keyLt b a = false) : a = b := by
  induction a generalizing b with
  | nil =>
    cases b with
    | nil => rfl
    | cons y tb => simp [keyLt] at hab
  | cons x ta ih =>
    cases b with
    | nil => simp [keyLt] at hba
    | cons y tb =>
      simp only [keyLt] at hab hba
      rcases Nat.lt_trichotomy x y with h | h | h
      · simp [h] at hab
      · subst h
        simp only [if_neg (Nat.lt_irrefl x)] at hab hba
        rw [ih hab hba]
      · simp [Nat.lt_asymm h, h] at hba

theorem keyLt_ge_trans {a b c : List Nat} (hab : keyLt a b = false)
    (hbc : keyLt b c = false) : keyLt a c = false := by
  cases hac : keyLt a c with
  | false => rfl
  | true =>
    exfalso
    cases hcb : keyLt c b with
    | true =>
      have h := keyLt_trans hac hcb
      rw [hab] at h
      exact Bool.false_ne_true h
    | false =>
      have hbceq : b = c := keyLt_conn hbc hcb
      subst hbceq
      rw [hab] at hac
      exact Bool.false_ne_true hac

/-- The descending comparison used by `sortVersionsDesc` is total. -/
theorem verGe_total (a b : String) : ((!(verLt a b)) || (!(verLt b a))) = true := by
  simp only [verLt]
  cases h1 : keyLt (verKey a) (verKey b)
  · simp
  · cases h2 : keyLt (verKey b) (verKey a)
    · simp
    · have h := keyLt_trans h1 h2
      rw [keyLt_irrefl] at h
      exact absurd h Bool.false_ne_true

/-- The descending comparison used by `sortVersionsDesc` is transitive. -/
theorem verGe_trans (a b c : String) (hab : (!(verLt a b)) = true)
    (hbc : (!(verLt b c)) = true) : (!(verLt a c)) = true := by
  simp only [Bool.not_eq_true', verLt] at hab hbc ⊢
  exact keyLt_ge_trans hab hbc

/-- The head of the dedup-and-sort-descending listing is an element of the raw
listing and no element of the raw listing is strictly newer than it. -/
theorem sortVersionsDesc_head {vs : List String} {v : String} {rest : List String}
    (h : sortVersionsDesc vs = v :: rest) :
    v ∈ vs ∧ ∀ w ∈ vs, verLt v w = false := by
  have hsorted := pairwise_insSort (fun a b => !(verLt a b))
    verGe_total verGe_trans vs.dedup
  rw [sortVersionsDesc] at h
  constructor
  · have hv : v ∈ insSort (fun a b => !(verLt a b)) vs.dedup := by
      rw [h]; exact List.mem_cons_self v rest
    rw [mem_insSort, List.mem_dedup] at hv
    exact hv
  · intro w hw
    have hwmem : w ∈ insSort (fun a b => !(verLt a b)) vs.dedup := by
      rw [mem_insSort, List.mem_dedup]; exact hw
    rw [h] at hwmem hsorted
    rcases List.mem_cons.mp hwmem with hwv | hwrest
    · subst hwv
      simp only [verLt]
      exact keyLt_irrefl _
    · have := (List.pairwise_cons.mp hsorted).1 w hwrest
      simpa using this

theorem sortVersionsDesc_ne_nil {vs : List String} (h : vs ≠ []) :
    sortVersionsDesc vs ≠ [] := by
  intro hnil
  rw [sortVersionsDesc] at hnil
  have hperm := insSort_perm (fun a b => !(verLt a b)) vs.dedup
  rw [hnil] at hperm
  have hd : vs.dedup = [] := hperm.symm.eq_nil
  rcases vs with _ | ⟨x, xs⟩
  · exact h rfl
  · have hx : x ∈ (List.dedup (x :: xs)) := List.mem_dedup.mpr (List.mem_cons_self x xs)
    rw [hd] at hx
    simp at hx

/-- **C1.** `resolve_static_version_for_arch(A, V)` returns `V` unchanged when
the canonical download URL for `V` at `A` exists; when that URL does not exist
and the published-version listing is non-empty, it returns the newest element
of the (deduplicated, numerically descending-sorted) listing; when the listing
is empty or could not be retrieved it returns `V` unchanged.  The result is
never empty, in the fallback case it is an element of the listing, and with
`V = "99.0.0"` absent and listing `["27.4.1", "27.3.0"]` it returns `"27.4.1"`. -/
theorem resolve_static_version_spec (urlOk : Bool) (found : List String)
    (V : String) (hV : V ≠ "") (hfound : ∀ v ∈ found, v ≠ "") :
    (urlOk = true → resolve_static_version_for_arch urlOk found V = V) ∧
    (urlOk = false → found ≠ [] →
      resolve_static_version_for_arch urlOk found V ∈ found ∧
      ∀ w ∈ found, verLt (resolve_static_version_for_arch urlOk found V) w = false) ∧
    (urlOk = false → found = [] → resolve_static_version_for_arch urlOk found V = V) ∧
    resolve_static_version_for_arch urlOk found V ≠ "" ∧
    resolve_static_version_for_arch false ["27.4.1", "27.3.0"] "99.0.0" = "27.4.1" := by
  refine ⟨?_, ?_, ?_, ?_, by decide⟩
  · intro h
    simp [resolve_static_version_for_arch, h]
  · intro hurl hne
    rcases hlist : list_static_versions found with _ | ⟨fb, rest⟩
    · exact absurd hlist (sortVersionsDesc_ne_nil hne)
    · have hhead := @sortVersionsDesc_head found fb rest hlist
      have hres : resolve_static_version_for_arch urlOk found V = fb := by
        simp [resolve_static_version_for_arch, hurl, hlist]
      rw [hres]
      exact hhead
  · intro hurl hnil
    subst hnil
    simp [resolve_static_version_for_arch, hurl, list_static_versions,
      sortVersionsDesc, insSort]
  · rcases urlOk with _ | _
    · rcases hlist : list_static_versions found with _ | ⟨fb, rest⟩
      · simpa [resolve_static_version_for_arch, hlist] using hV
      · have hhead := @sortVersionsDesc_head found fb rest hlist
        have hres : resolve_static_version_for_arch false found V = fb := by
          simp [resolve_static_version_for_arch, hlist]
        rw [hres]
        exact hfound fb hhead.1
    · simpa [resolve_static_version_for_arch] using hV

/-- Witness for C1 at a concrete input: the desired version `"99.0.0"` is
absent, the listing is `["27.4.1", "27.3.0"]`, and the resolver returns the
numerically newest listed version. -/
theorem resolve_static_version_spec_witness :
    resolve_static_version_for_arch false ["27.4.1", "27.3.0"] "99.0.0" = "27.4.1" :=
  (resolve_static_version_spec false ["27.4.1", "27.3.0"] "99.0.0"
    (by decide) (by decide)).2.2.2.2

/-! ## The retrying fetcher (`download_file`, `update.py` 220-300)

The mutable pieces of `DockerUpdater` are threaded as an explicit state:
`download_stats` (lines 51-56), the output directory (an association list from
filenames to byte contents), and a chronological trace of the observable
effects (network requests, backoff sleeps, deletions of partial files, digest
computations, `chmod` calls).  Each network attempt's outcome is supplied by an
oracle `Nat → AttemptOutcome` indexed by the attempt number:
* `ok content` - the body streams completely; the file is written, its SHA-256
  digest is computed from it (`calculate_file_hash`, lines 212-218) and its
  on-disk size recorded;
* `httpErr code` - `urlopen` raises `urllib.error.HTTPError` (before the
  destination file is opened, so nothing is written);
* `netErr written` - any other exception; `written = some bs` if the
  destination file had been created (with bytes `bs`) when the exception hit,
  `none` if the exception occurred before the file was opened.
-/

/-- The `download_stats` dictionary (`update.py` 51-56). -/
structure Stats where
  success : Nat
  failed : Nat
  skipped : Nat
  total_size : Nat
deriving DecidableEq

/-- Observable side effects of the updater, in chronological order. -/
inductive Event where
  /-- a `urllib.request.urlopen` GET for a download attempt -/
  | net (url : String)
  /-- a `time.sleep` backoff of the given number of seconds -/
  | sleep (secs : Nat)
  /-- a `filepath.unlink()` of a partially written file -/
  | deleteFile (name : String)
  /-- a `calculate_file_hash` over the named file, yielding the digest -/
  | hashed (name : String) (digest : String)
  /-- an `os.chmod(..., 0o755)` on the named file -/
  | chmod (name : String)
deriving DecidableEq

/-- The output directory: filenames mapped to byte contents. -/
abbrev FileSys : Type := List (String × List Nat)

/-- Contents of `name`, if the file exists (`filepath.exists()` / reading). -/
def fsGet (fs : FileSys) (name : String) : Option (List Nat) :=
  (fs.find? (fun p => p.1 == name)).map (fun p => p.2)

/-- Create/overwrite `name` with `content` (`open(filepath, 'wb')` + writes). -/
def fsSet (fs : FileSys) (name : String) (content : List Nat) : FileSys :=
  (name, content) :: fs.filter (fun p => p.1 != name)

/-- Delete `name` (`filepath.unlink()`). -/
def fsDel (fs : FileSys) (name : String) : FileSys :=
  fs.filter (fun p => p.1 != name)

/-- The threaded state: run statistics, output directory, effect trace. -/
structure UState where
  stats : Stats
  fs : FileSys
  trace : List Event
deriving DecidableEq

/-- Outcome of one network attempt, supplied by the environment. -/
inductive AttemptOutcome where
  /-- transfer succeeds with the given body -/
  | ok (content : List Nat)
  /-- `urlopen` raises `HTTPError` with this status code -/
  | httpErr (code : Nat)
  /-- any other exception; `written` is the partial file, if created -/
  | netErr (written : Option (List Nat))
deriving DecidableEq

/-- An outcome the source treats as retryable (anything except HTTP 404). -/
def retryable : AttemptOutcome → Bool
  | AttemptOutcome.ok _ => false
  | AttemptOutcome.httpErr code => code != 404
  | AttemptOutcome.netErr _ => true

/-- The backoff at the end of a failed attempt (`update.py` 293-297):
sleep `2 ^ attempt` seconds unless this was the last attempt. -/
def maybeSleep (max_retries attempt : Nat) (st : UState) : UState :=
  if attempt < max_retries - 1 then
    { st with trace := st.trace ++ [Event.sleep (2 ^ attempt)] }
  else st

/-- The retry loop of `download_file` (`update.py` 230-300), already past the
already-exists check.  `remaining` is the number of loop iterations left and
`attempt` the current 0-based attempt index; `download_file` enters with
`remaining = max_retries`, `attempt = 0`.  When the budget is exhausted the
source falls off the loop, increments `failed` and returns `False` (299-300). -/
def download_loop (hashFn : List Nat → String) (out : Nat → AttemptOutcome)
    (url filename : String) (max_retries : Nat) :
    Nat → Nat → UState → Bool × UState
  | 0, _, st =>
    (false, { st with stats := { st.stats with failed := st.stats.failed + 1 } })
  | remaining + 1, attempt, st =>
    let st1 : UState := { st with trace := st.trace ++ [Event.net url] }
    match out attempt with
    | AttemptOutcome.ok content =>
      -- body written to `filepath`, then hashed and measured (242-280)
      let st2 : UState := { st1 with fs := fsSet st1.fs filename content }
      let st3 : UState :=
        { st2 with trace := st2.trace ++ [Event.hashed filename (hashFn content)] }
      (true, { st3 with stats := { st3.stats with
                 success := st3.stats.success + 1,
                 total_size := st3.stats.total_size + content.length } })
    | AttemptOutcome.httpErr code =>
      -- `except urllib.error.HTTPError` (282-287): 404 aborts, else retry
      if code == 404 then
        (false, { st1 with stats := { st1.stats with failed := st1.stats.failed + 1 } })
      else
        download_loop hashFn out url filename max_retries remaining (attempt + 1)
          (maybeSleep max_retries attempt st1)
    | AttemptOutcome.netErr written =>
      -- `except Exception` (288-291): delete the partial file if it exists
      let st2 : UState :=
        match written with
        | none => st1
        | some bs =>
          { st1 with
            fs := fsDel (fsSet st1.fs filename bs) filename,
            trace := st1.trace ++ [Event.deleteFile filename] }
      download_loop hashFn out url filename max_retries remaining (attempt + 1)
        (maybeSleep max_retries attempt st2)

/-- `download_file` (`update.py` 220-300). Returns the boolean the source
returns, along with the updated state.  If the destination file already
exists the download is skipped with no network activity (225-228). -/
def download_file (hashFn : List Nat → String) (out : Nat → AttemptOutcome)
    (url filename : String) (max_retries : Nat) (st : UState) : Bool × UState :=
  if (fsGet st.fs filename).isSome then
    (true, { st with stats := { st.stats with skipped := st.stats.skipped + 1 } })
  else
    download_loop hashFn out url filename max_retries max_retries 0 st

/-! ### Trace observables -/

/-- Number of network requests in a trace fragment. -/
def countNet (t : List Event) : Nat :=
  t.countP (fun e => match e with | Event.net _ => true | _ => false)

/-- Number of network requests to a specific URL. -/
def countNetUrl (u : String) (t : List Event) : Nat :=
  t.countP (fun e => e == Event.net u)

/-- The sequence of backoff delays in a trace fragment. -/
def sleepList (t : List Event) : List Nat :=
  t.filterMap (fun e => match e with | Event.sleep n => some n | _ => none)

/-- Number of deletions of the named file in a trace fragment. -/
def countDel (name : String) (t : List Event) : Nat :=
  t.countP (fun e => e == Event.deleteFile name)

/-- Whether a single attempt outcome wrote a partial file. -/
def wrotePartial : AttemptOutcome → Bool
  | AttemptOutcome.netErr (some _) => true
  | _ => false

/-! ### Basic file-system lemmas -/

theorem fsGet_fsSet_self (fs : FileSys) (n : String) (c : List Nat) :
    fsGet (fsSet fs n c) n = some c := by
  simp [fsGet, fsSet, List.find?]

theorem fsDel_fsSet_absent {fs : FileSys} {n : String} (c : List Nat)
    (h : fsGet fs n = none) : fsDel (fsSet fs n c) n = fs := by
  have hfind : fs.find? (fun p => p.1 == n) = none := by
    cases hx : fs.find? (fun p => p.1 == n) with
    | none => rfl
    | some p =>
      rw [fsGet, hx] at h
      simp at h
  have hall : ∀ p ∈ fs, ¬((fun p : String × List Nat => p.1 == n) p = true) :=
    fun p hp => by
      have := List.find?_eq_none.mp hfind p hp
      simpa using this
  have hkeep : fs.filter (fun p => p.1 != n) = fs := by
    rw [List.filter_eq_self]
    intro p hp
    have := hall p hp
    simp only [bne]
    simp only [Bool.not_eq_true] at this ⊢
    simp [this]
  simp only [fsDel, fsSet]
  rw [List.filter_cons]
  have hn : ((n, c).1 != n) = false := by simp
  rw [hn]
  simp only [Bool.false_eq_true, if_false]
  rw [List.filter_filter]
  simpa [Bool.and_self] using hkeep

/-- `maybeSleep` only appends to the trace. -/
theorem maybeSleep_eq (m a : Nat) (st : UState) :
    maybeSleep m a st =
      { st with trace := st.trace ++
          (if a < m - 1 then [Event.sleep (2 ^ a)] else []) } := by
  unfold maybeSleep
  split
  · rfl
  · simp

/-! ### The retry-exhaustion behaviour (claim C2)

`retryDelta out url filename m remaining attempt` is the exact trace fragment
the loop appends when every remaining attempt fails with a retryable error. -/

/-- Trace fragment produced by a run of the loop in which every attempt fails
with a retryable error. -/
def retryDelta (out : Nat → AttemptOutcome) (url filename : String) (m : Nat) :
    Nat → Nat → List Event
  | 0, _ => []
  | remaining + 1, attempt =>
    [Event.net url] ++
    (if wrotePartial (out attempt) then [Event.deleteFile filename] else []) ++
    (if attempt < m - 1 then [Event.sleep (2 ^ attempt)] else []) ++
    retryDelta out url filename m remaining (attempt + 1)

theorem countNet_retryDelta (out : Nat → AttemptOutcome) (url filename : String)
    (m : Nat) : ∀ remaining attempt,
    countNet (retryDelta out url filename m remaining attempt) = remaining := by
  intro remaining
  induction remaining with
  | zero => intro attempt; rfl
  | succ k ih =>
    intro attempt
    simp only [retryDelta, countNet, List.countP_append]
    have h1 : (if wrotePartial (out attempt) then [Event.deleteFile filename]
        else []).countP (fun e => match e with | Event.net _ => true | _ => false) = 0 := by
      split <;> rfl
    have h2 : (if attempt < m - 1 then [Event.sleep (2 ^ attempt)]
        else []).countP (fun e => match e with | Event.net _ => true | _ => false) = 0 := by
      split <;> rfl
    have h3 := ih (attempt + 1)
    simp only [countNet] at h3
    simp [h1, h2, h3, List.countP_cons]
    omega

theorem sleepList_retryDelta (out : Nat → AttemptOutcome) (url filename : String)
    (m : Nat) : ∀ remaining attempt, attempt + remaining = m →
    sleepList (retryDelta out url filename m remaining attempt) =
      (List.range' attempt (remaining - 1)).map (fun i => 2 ^ i) := by
  intro remaining
  induction remaining with
  | zero => intro attempt _; rfl
  | succ k ih =>
    intro attempt hm
    simp only [retryDelta, sleepList, List.filterMap_append]
    have h1 : (if wrotePartial (out attempt) then [Event.deleteFile filename]
        else []).filterMap (fun e => match e with | Event.sleep n => some n | _ => none)
        = [] := by
      split <;> rfl
    have h3 := ih (attempt + 1) (by omega)
    simp only [sleepList] at h3
    rcases k with _ | k'
    · have hcond : ¬(attempt < m - 1) := by omega
      rw [if_neg hcond]
      simp [h1, h3]
    · have hcond : attempt < m - 1 := by omega
      rw [if_pos hcond]
      have hr : List.range' attempt (k' + 2 - 1) =
          attempt :: List.range' (attempt + 1) (k' + 1 - 1) := by
        have : k' + 2 - 1 = (k' + 1 - 1) + 1 := by omega
        rw [this, List.range'_succ]
      rw [hr]
      simp [h1, h3]

theorem countDel_retryDelta (out : Nat → AttemptOutcome) (url filename : String)
    (m : Nat) : ∀ remaining attempt,
    countDel filename (retryDelta out url filename m remaining attempt) =
      ((List.range' attempt remaining).filter (fun i => wrotePartial (out i))).length := by
  intro remaining
  induction remaining with
  | zero => intro attempt; rfl
  | succ k ih =>
    intro attempt
    simp only [retryDelta, countDel, List.countP_append]
    have h2 : (if attempt < m - 1 then [Event.sleep (2 ^ attempt)]
        else []).countP (fun e => e == Event.deleteFile filename) = 0 := by
      split <;> rfl
    have h1 : (if wrotePartial (out attempt) then [Event.deleteFile filename]
        else []).countP (fun e => e == Event.deleteFile filename) =
        (if wrotePartial (out attempt) then 1 else 0) := by
      split <;> simp
    have h3 := ih (attempt + 1)
    simp only [countDel] at h3
    rw [List.range'_succ, List.filter_cons]
    split
    · rename_i hw
      rw [hw] at h1
      simp only [if_pos] at h1
      simp [h1, h2, h3, List.countP_cons]
      omega
    · rename_i hw
      have hw' : wrotePartial (out attempt) = false := by
        cases hx : wrotePartial (out attempt)
        · rfl
        · exact absurd hx hw
      rw [hw'] at h1
      simp only [Bool.false_eq_true, if_false] at h1
      simp [h1, h2, h3, List.countP_cons]

/-- If every attempt from `attempt` on fails with a retryable error, the loop
returns `False`, increments only `failed`, leaves the output directory exactly
as it was, and appends exactly `retryDelta` to the trace. -/
theorem download_loop_all_retryable (hashFn : List Nat → String)
    (out : Nat → AttemptOutcome) (url filename : String) (m : Nat) :
    ∀ remaining attempt st, attempt + remaining = m →
      (∀ i, attempt ≤ i → i < m → retryable (out i) = true) →
      fsGet st.fs filename = none →
      download_loop hashFn out url filename m remaining attempt st =
        (false, { st with
          stats := { st.stats with failed := st.stats.failed + 1 },
          trace := st.trace ++ retryDelta out url filename m remaining attempt }) := by
  intro remaining
  induction remaining with
  | zero =>
    intro attempt st _ _ _
    simp [download_loop, retryDelta]
  | succ k ih =>
    intro attempt st hm hretry habsent
    have hatt := hretry attempt (Nat.le_refl _) (by omega)
    rcases hout : out attempt with content | code | written
    · rw [hout] at hatt
      simp [retryable] at hatt
    · rw [hout] at hatt
      simp only [retryable] at hatt
      have hcode : (code == 404) = false := by
        cases hx : (code == 404)
        · rfl
        · rw [bne, hx] at hatt
          simp at hatt
      simp only [download_loop, hout, hcode, Bool.false_eq_true, if_false,
        maybeSleep_eq]
      refine Eq.trans (ih (attempt + 1) _ (by omega)
        (fun i hi him => hretry i (by omega) him) ?_) ?_
      · exact habsent
      · simp [retryDelta, hout, wrotePartial, List.append_assoc]
    · rcases written with _ | bs
      · simp only [download_loop, hout, maybeSleep_eq]
        refine Eq.trans (ih (attempt + 1) _ (by omega)
          (fun i hi him => hretry i (by omega) him) ?_) ?_
        · exact habsent
        · simp [retryDelta, hout, wrotePartial, List.append_assoc]
      · simp only [download_loop, hout, maybeSleep_eq]
        refine Eq.trans (ih (attempt + 1) _ (by omega)
          (fun i hi him => hretry i (by omega) him) ?_) ?_
        · show fsGet (fsDel (fsSet st.fs filename bs) filename) filename = none
          rw [fsDel_fsSet_absent bs habsent]
          exact habsent
        · simp [retryDelta, hout, wrotePartial, List.append_assoc,
            fsDel_fsSet_absent bs habsent]

/-- **C2.** If the destination file does not already exist and every attempt
fails with a retryable (non-404) error, `download_file` makes exactly
`max_retries` network attempts, deletes the partially written destination file
after each attempt that wrote one (the output directory ends exactly as it
began), sleeps `2 ^ attempt` seconds between attempt `attempt` and the next
(so the delays are the non-decreasing sequence `2^0, 2^1, ...`), and finally
increments `failed` and returns `False`. -/
theorem download_file_retry_exhaustion (hashFn : List Nat → String)
    (out : Nat → AttemptOutcome) (url filename : String) (m : Nat) (st : UState)
    (habsent : fsGet st.fs filename = none)
    (hretry : ∀ i, i < m → retryable (out i) = true) :
    (download_file hashFn out url filename m st).1 = false ∧
    (download_file hashFn out url filename m st).2.stats =
      { st.stats with failed := st.stats.failed + 1 } ∧
    (download_file hashFn out url filename m st).2.fs = st.fs ∧
    (download_file hashFn out url filename m st).2.trace =
      st.trace ++ retryDelta out url filename m m 0 ∧
    countNet (retryDelta out url filename m m 0) = m ∧
    sleepList (retryDelta out url filename m m 0) =
      (List.range (m - 1)).map (fun i => 2 ^ i) ∧
    countDel filename (retryDelta out url filename m m 0) =
      ((List.range m).filter (fun i => wrotePartial (out i))).length := by
  have hloop := download_loop_all_retryable hashFn out url filename m m 0 st
    (by omega) (fun i _ him => hretry i him) habsent
  have hdf : download_file hashFn out url filename m st =
      download_loop hashFn out url filename m m 0 st := by
    simp [download_file, habsent]
  rw [hdf, hloop]
  refine ⟨rfl, rfl, rfl, rfl, countNet_retryDelta out url filename m m 0, ?_, ?_⟩
  · rw [sleepList_retryDelta out url filename m m 0 (by omega), List.range_eq_range']
  · rw [countDel_retryDelta out url filename m m 0, List.range_eq_range']

/-- Witness for C2: three attempts, each failing with a transient error that
left a partial file behind; three network requests, three deletions, backoff
delays `[1, 2]`, outcome `False` with `failed` incremented once. -/
theorem download_file_retry_exhaustion_witness :
    (download_file (fun _ => "d") (fun _ => AttemptOutcome.netErr (some [0]))
      "u" "f" 3 ⟨⟨0, 0, 0, 0⟩, [], []⟩).1 = false ∧
    (download_file (fun _ => "d") (fun _ => AttemptOutcome.netErr (some [0]))
      "u" "f" 3 ⟨⟨0, 0, 0, 0⟩, [], []⟩).2.stats = ⟨0, 1, 0, 0⟩ ∧
    countNet (retryDelta (fun _ => AttemptOutcome.netErr (some [0])) "u" "f" 3 3 0) = 3 ∧
    sleepList (retryDelta (fun _ => AttemptOutcome.netErr (some [0])) "u" "f" 3 3 0) =
      [1, 2] ∧
    countDel "f" (retryDelta (fun _ => AttemptOutcome.netErr (some [0])) "u" "f" 3 3 0) = 3 := by
  have h := download_file_retry_exhaustion (fun _ => "d")
    (fun _ => AttemptOutcome.netErr (some [0])) "u" "f" 3 ⟨⟨0, 0, 0, 0⟩, [], []⟩
    (by decide) (fun _ _ => rfl)
  exact ⟨h.1, by rw [h.2.1], by decide, by decide, by decide⟩

/-! ### Not-found, skip, and statistics behaviour (claims C3, C4, C8, C10) -/

/-- If the destination file exists, `download_file` skips: success, `skipped`
incremented, and no other state change (`update.py` 225-228). -/
theorem download_file_skip_eq (hashFn : List Nat → String)
    (out : Nat → AttemptOutcome) (url filename : String) (m : Nat) (st : UState)
    (h : (fsGet st.fs filename).isSome = true) :
    download_file hashFn out url filename m st =
      (true, { st with stats := { st.stats with skipped := st.stats.skipped + 1 } }) := by
  simp [download_file, h]

/-- Statistics and success-path invariants of the retry loop: `skipped` is
never touched; a `True` return increments `success` once, leaves `failed`
alone, accounts the downloaded file's on-disk size, stores the file, and has
computed its digest; a `False` return increments `failed` once and leaves
`success` and `total_size` alone. -/
theorem download_loop_stats (hashFn : List Nat → String) (out : Nat → AttemptOutcome)
    (url filename : String) (m : Nat) :
    ∀ remaining attempt st r,
      download_loop hashFn out url filename m remaining attempt st = r →
      r.2.stats.skipped = st.stats.skipped ∧
      (r.1 = true →
        r.2.stats.success = st.stats.success + 1 ∧
        r.2.stats.failed = st.stats.failed ∧
        ∃ c, fsGet r.2.fs filename = some c ∧
          r.2.stats.total_size = st.stats.total_size + c.length ∧
          Event.hashed filename (hashFn c) ∈ r.2.trace) ∧
      (r.1 = false →
        r.2.stats.failed = st.stats.failed + 1 ∧
        r.2.stats.success = st.stats.success ∧
        r.2.stats.total_size = st.stats.total_size) := by
  intro remaining
  induction remaining with
  | zero =>
    intro attempt st r hr
    subst hr
    refine ⟨rfl, fun h => by simp [download_loop] at h, fun _ => ⟨rfl, rfl, rfl⟩⟩
  | succ k ih =>
    intro attempt st r hr
    subst hr
    rcases hout : out attempt with content | code | written
    · have hred : download_loop hashFn out url filename m (k + 1) attempt st =
          (true, { st with
            fs := fsSet st.fs filename content,
            trace := st.trace ++ [Event.net url] ++
              [Event.hashed filename (hashFn content)],
            stats := { st.stats with
              success := st.stats.success + 1,
              total_size := st.stats.total_size + content.length } }) := by
        simp only [download_loop, hout]
      rw [hred]
      refine ⟨rfl, fun _ => ⟨rfl, rfl, content, fsGet_fsSet_self _ _ _, rfl, ?_⟩,
        fun h => by simp at h⟩
      simp
    · by_cases hc : (code == 404) = true
      · have hred : download_loop hashFn out url filename m (k + 1) attempt st =
            (false, { st with
              trace := st.trace ++ [Event.net url],
              stats := { st.stats with failed := st.stats.failed + 1 } }) := by
          simp only [download_loop, hout, hc, if_true]
        rw [hred]
        refine ⟨rfl, fun h => by simp at h, fun _ => ⟨rfl, rfl, rfl⟩⟩
      · have hc' : (code == 404) = false := by
          cases hx : (code == 404)
          · rfl
          · exact absurd hx hc
        have hred : download_loop hashFn out url filename m (k + 1) attempt st =
            download_loop hashFn out url filename m k (attempt + 1)
              { st with trace := st.trace ++ [Event.net url] ++
                  (if attempt < m - 1 then [Event.sleep (2 ^ attempt)] else []) } := by
          simp only [download_loop, hout, hc', Bool.false_eq_true, if_false,
            maybeSleep_eq]
        rw [hred]
        exact ih (attempt + 1)
          { st with trace := st.trace ++ [Event.net url] ++
              (if attempt < m - 1 then [Event.sleep (2 ^ attempt)] else []) } _ rfl
    · rcases written with _ | bs
      · have hred : download_loop hashFn out url filename m (k + 1) attempt st =
            download_loop hashFn out url filename m k (attempt + 1)
              { st with trace := st.trace ++ [Event.net url] ++
                  (if attempt < m - 1 then [Event.sleep (2 ^ attempt)] else []) } := by
          simp only [download_loop, hout, maybeSleep_eq]
        rw [hred]
        exact ih (attempt + 1)
          { st with trace := st.trace ++ [Event.net url] ++
              (if attempt < m - 1 then [Event.sleep (2 ^ attempt)] else []) } _ rfl
      · have hred : download_loop hashFn out url filename m (k + 1) attempt st =
            download_loop hashFn out url filename m k (attempt + 1)
              { st with
                fs := fsDel (fsSet st.fs filename bs) filename,
                trace := st.trace ++ [Event.net url] ++ [Event.deleteFile filename] ++
                  (if attempt < m - 1 then [Event.sleep (2 ^ attempt)] else []) } := by
          simp only [download_loop, hout, maybeSleep_eq]
        rw [hred]
        exact ih (attempt + 1)
          { st with
            fs := fsDel (fsSet st.fs filename bs) filename,
            trace := st.trace ++ [Event.net url] ++ [Event.deleteFile filename] ++
              (if attempt < m - 1 then [Event.sleep (2 ^ attempt)] else []) } _ rfl

/-- A successful `download_file` leaves the destination file in the output
directory (either it was already there or the loop wrote it). -/
theorem download_file_true_exists (hashFn : List Nat → String)
    (out : Nat → AttemptOutcome) (url filename : String) (m : Nat) (st : UState)
    (h : (download_file hashFn out url filename m st).1 = true) :
    (fsGet (download_file hashFn out url filename m st).2.fs filename).isSome = true := by
  by_cases hex : (fsGet st.fs filename).isSome = true
  · rw [download_file_skip_eq hashFn out url filename m st hex]
    exact hex
  · have hnone : fsGet st.fs filename = none := by
      cases hx : fsGet st.fs filename
      · rfl
      · rw [hx] at hex
        simp at hex
    have hdf : download_file hashFn out url filename m st =
        download_loop hashFn out url filename m m 0 st := by
      simp [download_file, hnone]
    rw [hdf] at h ⊢
    rcases (download_loop_stats hashFn out url filename m m 0 st _ rfl).2.1 h with
      ⟨_, _, c, hc, _, _⟩
    rw [hc]
    rfl

/-- **C3.** If the destination file does not already exist and the first
attempt fails with HTTP 404, `download_file` makes no further attempts:
exactly one network request is issued, no backoff delay is taken, the `failed`
counter is incremented, and the call returns `False` with the output directory
untouched. -/
theorem download_file_404_no_retry (hashFn : List Nat → String)
    (out : Nat → AttemptOutcome) (url filename : String) (m : Nat) (st : UState)
    (habsent : fsGet st.fs filename = none)
    (h404 : out 0 = AttemptOutcome.httpErr 404) (hpos : 1 ≤ m) :
    (download_file hashFn out url filename m st).1 = false ∧
    (download_file hashFn out url filename m st).2.stats =
      { st.stats with failed := st.stats.failed + 1 } ∧
    (download_file hashFn out url filename m st).2.trace = st.trace ++ [Event.net url] ∧
    (download_file hashFn out url filename m st).2.fs = st.fs ∧
    countNet (download_file hashFn out url filename m st).2.trace =
      countNet st.trace + 1 ∧
    sleepList (download_file hashFn out url filename m st).2.trace =
      sleepList st.trace := by
  obtain ⟨k, rfl⟩ : ∃ k, m = k + 1 := ⟨m - 1, by omega⟩
  have hdf : download_file hashFn out url filename (k + 1) st =
      download_loop hashFn out url filename (k + 1) (k + 1) 0 st := by
    simp [download_file, habsent]
  rw [hdf]
  simp only [download_loop, h404]
  refine ⟨rfl, rfl, by simp, rfl, ?_, ?_⟩
  · simp [countNet, List.countP_append]
  · simp [sleepList, List.filterMap_append]

/-- Witness for C3: the only attempt returns 404; one network request, no
sleep, `failed` goes from 0 to 1, outcome `False`. -/
theorem download_file_404_no_retry_witness :
    (download_file (fun _ => "d") (fun _ => AttemptOutcome.httpErr 404)
      "u" "f" 3 ⟨⟨0, 0, 0, 0⟩, [], []⟩).1 = false ∧
    (download_file (fun _ => "d") (fun _ => AttemptOutcome.httpErr 404)
      "u" "f" 3 ⟨⟨0, 0, 0, 0⟩, [], []⟩).2.trace = [Event.net "u"] := by
  have h := download_file_404_no_retry (fun _ => "d")
    (fun _ => AttemptOutcome.httpErr 404) "u" "f" 3 ⟨⟨0, 0, 0, 0⟩, [], []⟩
    (by decide) rfl (by decide)
  exact ⟨h.1, by rw [h.2.2.1]; rfl⟩

/-- **C4.** If the destination path already exists, `download_file` performs
no network activity (the trace is unchanged), reports the outcome "skipped"
(only the `skipped` counter changes), returns success, and leaves every file
byte-identical; consequently a second invocation with the same destination
path after any successful invocation is such a skip, performing zero network
calls. -/
theorem download_file_idempotent (hashFn : List Nat → String)
    (out : Nat → AttemptOutcome) (url filename : String) (m : Nat) (st : UState) :
    (∀ c, fsGet st.fs filename = some c →
      download_file hashFn out url filename m st =
        (true, { st with stats := { st.stats with skipped := st.stats.skipped + 1 } })) ∧
    ((download_file hashFn out url filename m st).1 = true →
      ∀ (hashFn2 : List Nat → String) (out2 : Nat → AttemptOutcome)
        (url2 : String) (m2 : Nat),
        download_file hashFn2 out2 url2 filename m2
            (download_file hashFn out url filename m st).2 =
          (true, { (download_file hashFn out url filename m st).2 with
            stats := { (download_file hashFn out url filename m st).2.stats with
              skipped :=
                (download_file hashFn out url filename m st).2.stats.skipped + 1 } })) := by
  constructor
  · intro c hc
    exact download_file_skip_eq hashFn out url filename m st (by rw [hc]; rfl)
  · intro h hashFn2 out2 url2 m2
    exact download_file_skip_eq hashFn2 out2 url2 filename m2 _
      (download_file_true_exists hashFn out url filename m st h)

/-- Witness for C4: with `"f"` already on disk, the call returns `True`,
increments only `skipped`, and leaves directory and trace untouched. -/
theorem download_file_idempotent_witness :
    download_file (fun _ => "d") (fun _ => AttemptOutcome.httpErr 500) "u" "f" 3
        ⟨⟨0, 0, 0, 0⟩, [("f", [7])], []⟩ =
      (true, ⟨⟨0, 0, 1, 0⟩, [("f", [7])], []⟩) :=
  (download_file_idempotent (fun _ => "d") (fun _ => AttemptOutcome.httpErr 500)
    "u" "f" 3 ⟨⟨0, 0, 0, 0⟩, [("f", [7])], []⟩).1 [7] (by decide)

/-- **C8 (amended).** Whenever `download_file` reports success the destination
file exists in the output directory, and on every success path other than the
already-exists (skipped) path its digest was computed from exactly that file
before success was reported.  On the skipped path, however, the call returns
success without computing any digest (the trace is untouched) - the original
claim, which includes the skipped path in the digest guarantee, is false. -/
theorem download_file_success_integrity (hashFn : List Nat → String)
    (out : Nat → AttemptOutcome) (url filename : String) (m : Nat) (st : UState) :
    ((download_file hashFn out url filename m st).1 = true →
      ∃ c, fsGet (download_file hashFn out url filename m st).2.fs filename = some c ∧
        (fsGet st.fs filename = none →
          Event.hashed filename (hashFn c) ∈
            (download_file hashFn out url filename m st).2.trace)) ∧
    (fsGet st.fs filename ≠ none →
      (download_file hashFn out url filename m st).2.trace = st.trace) := by
  constructor
  · intro h
    by_cases hex : fsGet st.fs filename = none
    · have hdf : download_file hashFn out url filename m st =
          download_loop hashFn out url filename m m 0 st := by
        simp [download_file, hex]
      rw [hdf] at h ⊢
      rcases (download_loop_stats hashFn out url filename m m 0 st _ rfl).2.1 h with
        ⟨_, _, c, hc, _, hmem⟩
      exact ⟨c, hc, fun _ => hmem⟩
    · have hsome : (fsGet st.fs filename).isSome = true := by
        cases hx : fsGet st.fs filename
        · exact absurd hx hex
        · rfl
      rw [download_file_skip_eq hashFn out url filename m st hsome]
      rcases hx : fsGet st.fs filename with _ | c
      · exact absurd hx hex
      · exact ⟨c, rfl, fun hcontra => by simp at hcontra⟩
  · intro hex
    have hsome : (fsGet st.fs filename).isSome = true := by
      cases hx : fsGet st.fs filename
      · exact absurd hx hex
      · rfl
    rw [download_file_skip_eq hashFn out url filename m st hsome]

/-- Witness for C8 (amended), non-skip path: a fresh download stores the file
and records the digest computation before returning success. -/
theorem download_file_success_integrity_witness :
    ∃ c, fsGet (download_file (fun _ => "d") (fun _ => AttemptOutcome.ok [1, 2])
        "u" "f" 3 ⟨⟨0, 0, 0, 0⟩, [], []⟩).2.fs "f" = some c ∧
      (fsGet (⟨⟨0, 0, 0, 0⟩, [], []⟩ : UState).fs "f" = none →
        Event.hashed "f" ((fun _ => "d") c) ∈
          (download_file (fun _ => "d") (fun _ => AttemptOutcome.ok [1, 2])
            "u" "f" 3 ⟨⟨0, 0, 0, 0⟩, [], []⟩).2.trace) :=
  (download_file_success_integrity (fun _ => "d") (fun _ => AttemptOutcome.ok [1, 2])
    "u" "f" 3 ⟨⟨0, 0, 0, 0⟩, [], []⟩).1 (by decide)

/-- Counterexample to C8 as stated: on the already-exists (skipped) path the
fetcher reports success (`True`) without having computed any digest - the
trace of the call is empty, so no digest was computed from the file before
success was reported. -/
theorem download_file_skip_no_digest :
    (download_file (fun _ => "digest") (fun _ => AttemptOutcome.ok [1]) "u" "f" 3
        ⟨⟨0, 0, 0, 0⟩, [("f", [1])], []⟩).1 = true ∧
    (download_file (fun _ => "digest") (fun _ => AttemptOutcome.ok [1]) "u" "f" 3
        ⟨⟨0, 0, 0, 0⟩, [("f", [1])], []⟩).2.trace = [] := by
  decide

/-- **C10.** Every completed `download_file` call increments exactly one of
`success`, `failed`, `skipped` and by exactly 1 (so their sum rises by exactly
one per call); `total_size` grows - by the downloaded file's on-disk size -
only on calls that increment `success`; and the call returns `True` iff it
incremented `success` or `skipped`. -/
theorem download_file_stats_invariant (hashFn : List Nat → String)
    (out : Nat → AttemptOutcome) (url filename : String) (m : Nat) (st : UState) :
    ((((download_file hashFn out url filename m st).2.stats.success
          = st.stats.success + 1 ∧
        (download_file hashFn out url filename m st).2.stats.failed = st.stats.failed ∧
        (download_file hashFn out url filename m st).2.stats.skipped
          = st.stats.skipped) ∨
      ((download_file hashFn out url filename m st).2.stats.failed
          = st.stats.failed + 1 ∧
        (download_file hashFn out url filename m st).2.stats.success
          = st.stats.success ∧
        (download_file hashFn out url filename m st).2.stats.skipped
          = st.stats.skipped) ∨
      ((download_file hashFn out url filename m st).2.stats.skipped
          = st.stats.skipped + 1 ∧
        (download_file hashFn out url filename m st).2.stats.success
          = st.stats.success ∧
        (download_file hashFn out url filename m st).2.stats.failed
          = st.stats.failed))) ∧
    ((download_file hashFn out url filename m st).2.stats.success +
        (download_file hashFn out url filename m st).2.stats.failed +
        (download_file hashFn out url filename m st).2.stats.skipped =
      st.stats.success + st.stats.failed + st.stats.skipped + 1) ∧
    ((download_file hashFn out url filename m st).2.stats.success
        = st.stats.success + 1 →
      ∃ c, fsGet (download_file hashFn out url filename m st).2.fs filename = some c ∧
        (download_file hashFn out url filename m st).2.stats.total_size =
          st.stats.total_size + c.length) ∧
    ((download_file hashFn out url filename m st).2.stats.success = st.stats.success →
      (download_file hashFn out url filename m st).2.stats.total_size =
        st.stats.total_size) ∧
    ((download_file hashFn out url filename m st).1 = true ↔
      ((download_file hashFn out url filename m st).2.stats.success
          = st.stats.success + 1 ∨
       (download_file hashFn out url filename m st).2.stats.skipped
          = st.stats.skipped + 1)) := by
  by_cases hex : (fsGet st.fs filename).isSome = true
  · rw [download_file_skip_eq hashFn out url filename m st hex]
    refine ⟨Or.inr (Or.inr ⟨rfl, rfl, rfl⟩), by dsimp only; omega,
      fun h => ?_, fun _ => rfl, ⟨fun _ => Or.inr rfl, fun _ => rfl⟩⟩
    · dsimp only at h
      exact absurd h (by omega)
  · have hnone : fsGet st.fs filename = none := by
      cases hx : fsGet st.fs filename
      · rfl
      · rw [hx] at hex
        simp at hex
    have hdf : download_file hashFn out url filename m st =
        download_loop hashFn out url filename m m 0 st := by
      simp [download_file, hnone]
    rw [hdf]
    rcases download_loop_stats hashFn out url filename m m 0 st _ rfl with
      ⟨hskip, htrue, hfalse⟩
    rcases hb : (download_loop hashFn out url filename m m 0 st).1 with _ | _
    · rcases hfalse hb with ⟨hf, hs, ht⟩
      refine ⟨Or.inr (Or.inl ⟨hf, hs, hskip⟩), by omega, fun h => ?_, fun _ => ht, ?_⟩
      · exact absurd h (by omega)
      · constructor
        · intro hcontra
          simp at hcontra
        · intro hor
          exfalso
          rcases hor with h1 | h1 <;> omega
    · rcases htrue hb with ⟨hs, hf, c, hc, ht, _⟩
      refine ⟨Or.inl ⟨hs, hf, hskip⟩, by omega, fun _ => ⟨c, hc, ht⟩,
        fun h => ?_, ?_⟩
      · exact absurd h (by omega)
      · exact ⟨fun _ => Or.inl hs, fun _ => rfl⟩

/-- Witness for C10 at a concrete input: a fresh successful download returns
`True` iff it bumped `success` or `skipped` (here: `success` from 0 to 1). -/
theorem download_file_stats_invariant_witness :
    (download_file (fun _ => "d") (fun _ => AttemptOutcome.ok [5]) "u" "f" 3
        ⟨⟨0, 0, 0, 0⟩, [], []⟩).1 = true ↔
      ((download_file (fun _ => "d") (fun _ => AttemptOutcome.ok [5]) "u" "f" 3
          ⟨⟨0, 0, 0, 0⟩, [], []⟩).2.stats.success
        = (⟨0, 0, 0, 0⟩ : Stats).success + 1 ∨
       (download_file (fun _ => "d") (fun _ => AttemptOutcome.ok [5]) "u" "f" 3
          ⟨⟨0, 0, 0, 0⟩, [], []⟩).2.stats.skipped
        = (⟨0, 0, 0, 0⟩ : Stats).skipped + 1) :=
  (download_file_stats_invariant (fun _ => "d") (fun _ => AttemptOutcome.ok [5])
    "u" "f" 3 ⟨⟨0, 0, 0, 0⟩, [], []⟩).2.2.2.2

/-! ## The compose release-asset locator (`get_compose_asset_url`, 184-210)

The release-metadata query for tag `v{version}` is an oracle: `none` models an
exception (metadata unreachable/unparseable), `some assets` the parsed asset
list.  Name matching is pure string computation, modelled on character lists.
-/

/-- Python's substring test `needle in hay`. -/
def containsSub (needle : List Char) : List Char → Bool
  | [] => needle.isEmpty
  | c :: t => needle.isPrefixOf (c :: t) || containsSub needle t

/-- Python's `hay_str.__contains__(needle_str)`, i.e. `needle in hay`. -/
def strContains (needle hay : String) : Bool :=
  containsSub needle.toList hay.toList

/-- Python's `s.startswith(p)`. -/
def strStarts (p s : String) : Bool :=
  p.toList.isPrefixOf s.toList

/-- One entry of the release's `assets` array (name and download URL). -/
structure Asset where
  name : String
  url : String
deriving DecidableEq

/-- The alias table `{"x86_64": ["amd64"], "aarch64": ["arm64"]}.get(arch, [])`
(`update.py` 195). -/
def composeAltArches (arch : String) : List String :=
  if arch == "x86_64" then ["amd64"]
  else if arch == "aarch64" then ["arm64"]
  else []

/-- The exact-name candidate list built in `update.py` 194-198: the canonical
token with and without `.exe`, then both variants for each alias. -/
def composeCandidateNames (arch : String) : List String :=
  ["docker-compose-linux-" ++ arch, "docker-compose-linux-" ++ arch ++ ".exe"] ++
  (composeAltArches arch).foldr
    (fun a acc => ("docker-compose-linux-" ++ a) ::
      ("docker-compose-linux-" ++ a ++ ".exe") :: acc) []

/-- An asset matches (`update.py` 199-206) when its name equals a candidate
exactly, or - as the per-asset fallback - starts with `docker-compose-linux-`
and contains the architecture token or an alias as a substring. -/
def composeAssetMatch (arch : String) (a : Asset) : Bool :=
  (composeCandidateNames arch).any (fun n => a.name == n) ||
  (strStarts "docker-compose-linux-" a.name &&
    (strContains arch a.name ||
     (composeAltArches arch).any (fun al => strContains al a.name)))

/-- The `for asset in assets` loop of `update.py` 199-206: per asset, try the
exact-name test first, then the prefix+substring fallback; return the first
hit's URL. -/
def findComposeAsset (arch : String) : List Asset → Option String
  | [] => none
  | a :: rest =>
    if (composeCandidateNames arch).any (fun n => a.name == n) then some a.url
    else if strStarts "docker-compose-linux-" a.name &&
            (strContains arch a.name ||
             (composeAltArches arch).any (fun al => strContains al a.name)) then
      some a.url
    else findComposeAsset arch rest

/-- `get_compose_asset_url` (`update.py` 184-210).  `meta = none` models the
`except` path (query failed); `version` only feeds the tag in the query URL. -/
def get_compose_asset_url (meta : Option (List Asset)) (version arch : String) :
    Option String :=
  match meta with
  | none => none
  | some assets => findComposeAsset arch assets

/-- The scan returns exactly the URL of the first asset satisfying
`composeAssetMatch`. -/
theorem findComposeAsset_eq_find (arch : String) (assets : List Asset) :
    findComposeAsset arch assets =
      (assets.find? (fun a => composeAssetMatch arch a)).map (fun a => a.url) := by
  induction assets with
  | nil => rfl
  | cons a rest ih =>
    by_cases hm : composeAssetMatch arch a = true
    · rw [List.find?_cons_of_pos rest hm]
      have hor := hm
      rw [composeAssetMatch, Bool.or_eq_true] at hor
      rcases h1 : (composeCandidateNames arch).any (fun n => a.name == n)
      · have h2 : (strStarts "docker-compose-linux-" a.name &&
            (strContains arch a.name ||
             (composeAltArches arch).any (fun al => strContains al a.name))) = true := by
          rcases hor with h | h
          · rw [h1] at h
            exact absurd h (by simp)
          · exact h
        simp only [findComposeAsset, h1, Bool.false_eq_true, if_false, h2, if_true]
        rfl
      · simp only [findComposeAsset, h1, if_true]
        rfl
    · have hm' : composeAssetMatch arch a = false := by
        cases hx : composeAssetMatch arch a
        · rfl
        · exact absurd hx hm
      rw [List.find?_cons_of_neg rest (by simpa using hm')]
      have hparts := hm'
      rw [composeAssetMatch, Bool.or_eq_false_iff] at hparts
      simp only [findComposeAsset, hparts.1, Bool.false_eq_true, if_false,
        hparts.2, ih]

/-- **C7.** `get_compose_asset_url(version, arch)` queries the release
metadata for tag `v{version}`; when that query fails it returns not-found.
Otherwise it scans the listed assets in order, matching each first by exact
filename against the canonical token `docker-compose-linux-{arch}` (with and
without `.exe`) and the alias tokens (`amd64` for `x86_64`, `arm64` for
`aarch64`), then by substring of the arch token or an alias within names
starting with `docker-compose-linux-`; it returns the first matching asset's
URL, and not-found when no asset matches.  In particular, for version
`"2.32.4"` and arch `"aarch64"` with assets `docker-compose-linux-aarch64`
and `docker-compose-linux-aarch64.exe`, it returns the non-`.exe` URL. -/
theorem get_compose_asset_url_spec (meta : Option (List Asset))
    (version arch : String) :
    (meta = none → get_compose_asset_url meta version arch = none) ∧
    (∀ assets, meta = some assets →
      ((get_compose_asset_url meta version arch = none ↔
        ∀ a ∈ assets, composeAssetMatch arch a = false) ∧
       (∀ u, get_compose_asset_url meta version arch = some u →
        ∃ a pre post, assets = pre ++ a :: post ∧
          composeAssetMatch arch a = true ∧ u = a.url ∧
          ∀ b ∈ pre, composeAssetMatch arch b = false))) ∧
    get_compose_asset_url
      (some [⟨"docker-compose-linux-aarch64", "URL1"⟩,
             ⟨"docker-compose-linux-aarch64.exe", "URL2"⟩]) "2.32.4" "aarch64" =
      some "URL1" := by
  refine ⟨fun h => by rw [h]; rfl, ?_, by decide⟩
  intro assets hmeta
  subst hmeta
  have heq : get_compose_asset_url (some assets) version arch =
      (assets.find? (fun a => composeAssetMatch arch a)).map (fun a => a.url) :=
    findComposeAsset_eq_find arch assets
  constructor
  · rw [heq]
    constructor
    · intro h
      have hfind : assets.find? (fun a => composeAssetMatch arch a) = none := by
        cases hx : assets.find? (fun a => composeAssetMatch arch a)
        · rfl
        · rw [hx] at h
          simp at h
      intro a ha
      have := List.find?_eq_none.mp hfind a ha
      cases hx : composeAssetMatch arch a
      · rfl
      · exact absurd hx this
    · intro h
      have hfind : assets.find? (fun a => composeAssetMatch arch a) = none :=
        List.find?_eq_none.mpr (fun a ha => by simp [h a ha])
      rw [hfind]
      rfl
  · intro u hu
    rw [heq] at hu
    rcases hx : assets.find? (fun a => composeAssetMatch arch a) with _ | b
    · rw [hx] at hu
      simp at hu
    · rw [hx] at hu
      have hub : u = b.url := by
        simpa using hu.symm
      rcases List.find?_eq_some.mp hx with ⟨hpb, pre, post, hsplit, hpre⟩
      exact ⟨b, pre, post, hsplit, hpb, hub,
        fun c hc => by simpa using hpre c hc⟩

/-- Witness for C7 at the scenario input: version `"2.32.4"`, arch
`"aarch64"`, assets `docker-compose-linux-aarch64` and its `.exe` variant;
the non-`.exe` asset's URL is returned. -/
theorem get_compose_asset_url_spec_witness :
    get_compose_asset_url
      (some [⟨"docker-compose-linux-aarch64", "URL1"⟩,
             ⟨"docker-compose-linux-aarch64.exe", "URL2"⟩]) "2.32.4" "aarch64" =
      some "URL1" :=
  (get_compose_asset_url_spec
    (some [⟨"docker-compose-linux-aarch64", "URL1"⟩,
           ⟨"docker-compose-linux-aarch64.exe", "URL2"⟩]) "2.32.4" "aarch64").2.2

/-! ## The reconciler (`cleanup_old_versions`, `update.py` 302-344)

The directory is a list of filenames.  Each of the three passes globs a
single-star pattern (`fnmatch`: `A*B` matches `name` iff `name` starts with
`A` and the remainder ends with `B`) and applies an anchored-at-start
`re.match` of the form `LIT(\d+\.\d+\.\d+)-TAIL` with `TAIL` either `.+\.tgz`
or `.+`.  Because `\d+` is greedy over digit runs and the separators `.`/`-`
are literals that can never match a digit, the regex backtracks vacuously, so
the version group is the deterministic parse implemented by `parseSemverDash`;
the unanchored tail `.+\.tgz` succeeds iff `.tgz` occurs in the remainder at
an index of at least 1, and `.+` iff the remainder is non-empty. -/

/-- The maximal leading run of decimal digits and the remainder. -/
def takeDigits : List Char → List Char × List Char
  | [] => ([], [])
  | c :: t =>
    if c.isDigit then
      let r := takeDigits t
      (c :: r.1, r.2)
    else ([], c :: t)

/-- The deterministic parse of the regex fragment `(\d+\.\d+\.\d+)-` at the
start of `s`: the version group's characters and the remainder past the dash. -/
def parseSemverDash (s : List Char) : Option (List Char × List Char) :=
  let d1 := takeDigits s
  if d1.1.isEmpty then none else
  match d1.2 with
  | '.' :: r2 =>
    let d2 := takeDigits r2
    if d2.1.isEmpty then none else
    match d2.2 with
    | '.' :: r4 =>
      let d3 := takeDigits r4
      if d3.1.isEmpty then none else
      match d3.2 with
      | '-' :: r6 => some (d1.1 ++ '.' :: d2.1 ++ '.' :: d3.1, r6)
      | _ => none
    | _ => none
  | _ => none

/-- The unanchored regex tail `.+\.tgz`: `.tgz` occurs at index `>= 1`. -/
def tailDotTgz (rest : List Char) : Bool :=
  containsSub ".tgz".toList (rest.drop 1)

/-- The unanchored regex tail `.+`: at least one character. -/
def tailAny1 (rest : List Char) : Bool :=
  !rest.isEmpty

/-- `re.match(lit + r'(\d+\.\d+\.\d+)-' + tail, name).group(1)`, with `tail`
being `.+\.tgz` when `tgz` and `.+` otherwise. -/
def reMatchVersion (lit : String) (tgz : Bool) (name : String) : Option String :=
  if lit.toList.isPrefixOf name.toList then
    match parseSemverDash (name.toList.drop lit.toList.length) with
    | some (v, rest) =>
      if (if tgz then tailDotTgz rest else tailAny1 rest) then some (String.mk v)
      else none
    | none => none
  else none

/-- `re.match(r'docker-(\d+\.\d+\.\d+)-.+\.tgz', name)` (`update.py` 312). -/
def extract_docker_version (name : String) : Option String :=
  reMatchVersion "docker-" true name

/-- `re.match(r'docker-rootless-extras-(\d+\.\d+\.\d+)-.+\.tgz', name)`
(`update.py` 324). -/
def extract_rootless_version (name : String) : Option String :=
  reMatchVersion "docker-rootless-extras-" true name

/-- `re.match(r'docker-compose-linux-(\d+\.\d+\.\d+)-.+', name)`
(`update.py` 336). -/
def extract_compose_version (name : String) : Option String :=
  reMatchVersion "docker-compose-linux-" false name

/-- `fnmatch` of a single-star glob `P*S` against a bare filename. -/
def globStar1 (p s name : String) : Bool :=
  p.toList.isPrefixOf name.toList &&
  s.toList.isSuffixOf (name.toList.drop p.toList.length)

/-- Pass 1 (`update.py` 307-317): `docker-*-{arch}.tgz` files whose extracted
version differs from the runtime version just installed. -/
def dockerStale (current arch name : String) : Bool :=
  globStar1 "docker-" ("-" ++ arch ++ ".tgz") name &&
  (match extract_docker_version name with
   | some v => v != current
   | none => false)

/-- Pass 2 (`update.py` 319-329): `docker-rootless-extras-*-{arch}.tgz` files;
note the source compares against `current_docker_version` here too. -/
def rootlessStale (current arch name : String) : Bool :=
  globStar1 "docker-rootless-extras-" ("-" ++ arch ++ ".tgz") name &&
  (match extract_rootless_version name with
   | some v => v != current
   | none => false)

/-- Pass 3 (`update.py` 331-341): `docker-compose-linux-*-{arch}` files whose
extracted version differs from the compose version just installed. -/
def composeStale (current arch name : String) : Bool :=
  globStar1 "docker-compose-linux-" ("-" ++ arch) name &&
  (match extract_compose_version name with
   | some v => v != current
   | none => false)

/-- `cleanup_old_versions` (`update.py` 302-344): the three passes run in
sequence, each deleting its globbed-and-regex-matched stale files; deleting a
file is removing it from the directory listing (deletions are modelled as
succeeding, per the best-effort contract). Returns the remaining directory. -/
def cleanup_old_versions (dir : List String)
    (current_docker_version current_compose_version arch : String) : List String :=
  let d1 := dir.filter (fun n => !(dockerStale current_docker_version arch n))
  let d2 := d1.filter (fun n => !(rootlessStale current_docker_version arch n))
  d2.filter (fun n => !(composeStale current_compose_version arch n))

/-- A file any of the three passes deletes. -/
def staleFile (dv cv arch name : String) : Bool :=
  dockerStale dv arch name || rootlessStale dv arch name || composeStale cv arch name

/-- **C6.** `cleanup_old_versions` deletes exactly the files that match some
artifact family's naming pattern (glob plus version-extracting regex) for the
given architecture and whose extracted version differs from that family's
just-installed version (the resolved runtime version for the runtime and
rootless-extras families, the compose version for the compose family); files
whose names do not match any pattern, and files of other architectures, are
untouched.  In the scenario with runtime files for 1.0.0/1.1.0/1.2.0 and
current version 1.2.0, exactly the 1.0.0 and 1.1.0 files are removed while an
other-architecture file, a same-version rootless file, a current compose file
and a non-matching name survive. -/
theorem cleanup_old_versions_spec (dir : List String) (dv cv arch : String) :
    cleanup_old_versions dir dv cv arch =
      dir.filter (fun n => !(staleFile dv cv arch n)) ∧
    (∀ n ∈ dir, extract_docker_version n = none → extract_rootless_version n = none →
      extract_compose_version n = none → n ∈ cleanup_old_versions dir dv cv arch) ∧
    cleanup_old_versions
      ["docker-1.0.0-x86_64.tgz", "docker-1.1.0-x86_64.tgz",
       "docker-1.2.0-x86_64.tgz", "docker-1.0.0-aarch64.tgz",
       "docker-rootless-extras-1.2.0-x86_64.tgz",
       "docker-compose-linux-2.32.4-x86_64", "SHA256SUMS"]
      "1.2.0" "2.32.4" "x86_64" =
      ["docker-1.2.0-x86_64.tgz", "docker-1.0.0-aarch64.tgz",
       "docker-rootless-extras-1.2.0-x86_64.tgz",
       "docker-compose-linux-2.32.4-x86_64", "SHA256SUMS"] := by
  have hmain : cleanup_old_versions dir dv cv arch =
      dir.filter (fun n => !(staleFile dv cv arch n)) := by
    simp only [cleanup_old_versions, List.filter_filter]
    refine List.filter_congr ?_
    intro n _
    cases h1 : dockerStale dv arch n <;>
      cases h2 : rootlessStale dv arch n <;>
        cases h3 : composeStale cv arch n <;>
          simp [staleFile, h1, h2, h3]
  refine ⟨hmain, ?_, by decide⟩
  intro n hn hd hr hc
  rw [hmain]
  refine List.mem_filter.mpr ⟨hn, ?_⟩
  simp [staleFile, dockerStale, rootlessStale, composeStale, hd, hr, hc]

/-- Witness for C6 at the reconciliation scenario from the spec. -/
theorem cleanup_old_versions_spec_witness :
    cleanup_old_versions
      ["docker-1.0.0-x86_64.tgz", "docker-1.1.0-x86_64.tgz",
       "docker-1.2.0-x86_64.tgz", "docker-1.0.0-aarch64.tgz",
       "docker-rootless-extras-1.2.0-x86_64.tgz",
       "docker-compose-linux-2.32.4-x86_64", "SHA256SUMS"]
      "1.2.0" "2.32.4" "x86_64" =
      ["docker-1.2.0-x86_64.tgz", "docker-1.0.0-aarch64.tgz",
       "docker-rootless-extras-1.2.0-x86_64.tgz",
       "docker-compose-linux-2.32.4-x86_64", "SHA256SUMS"] :=
  (cleanup_old_versions_spec [] "1.2.0" "2.32.4" "x86_64").2.2

/-! ## The manifest writer (`create_checksums_file`, `update.py` 371-382)

The output directory is a list of `(filename, bytes)` pairs (every entry a
regular file).  Opening `SHA256SUMS` with mode `'w'` truncates it, so the
manifest's final contents are exactly the lines produced by the loop; the
model therefore returns the full list of written lines. -/

theorem keyGe_total (a b : List Nat) :
    ((!(keyLt a b)) || (!(keyLt b a))) = true := by
  cases h1 : keyLt a b
  · simp
  · cases h2 : keyLt b a
    · simp
    · have h := keyLt_trans h1 h2
      rw [keyLt_irrefl] at h
      exact absurd h Bool.false_ne_true

/-- Index of the last `'.'` in a character list, if any (`str.rfind('.')`). -/
def lastDotIdx : List Char → Option Nat
  | [] => none
  | c :: t =>
    match lastDotIdx t with
    | some i => some (i + 1)
    | none => if c == '.' then some 0 else none

/-- `pathlib.PurePath.suffix`: the substring from the last dot when that dot
is neither at index 0 nor the final character; otherwise the empty string. -/
def pathSuffix (name : String) : String :=
  match lastDotIdx name.toList with
  | none => ""
  | some i =>
    if 0 < i ∧ i < name.toList.length - 1 then String.mk (name.toList.drop i)
    else ""

/-- The filter of `update.py` 377-378: regular files whose `suffix` is `.tgz`
or empty, excluding the manifest itself. -/
def coveredFile (name : String) : Bool :=
  (pathSuffix name == ".tgz" || pathSuffix name == "") && name != "SHA256SUMS"

/-- Python's `<=` on strings (lexicographic by code point), as used by
`sorted` over same-directory paths. -/
def nameLe (a b : String) : Bool :=
  !(keyLt (b.toList.map Char.toNat) (a.toList.map Char.toNat))

/-- `sorted(self.output_dir.glob("*"))`: directory entries sorted by name. -/
def sortByName (dir : List (String × List Nat)) : List (String × List Nat) :=
  insSort (fun p q => nameLe p.1 q.1) dir

/-- One manifest line: `f.write(f"{sha256}  {file.name}\n")` (`update.py` 380). -/
def checksumLine (hashFn : List Nat → String) (p : String × List Nat) : String :=
  hashFn p.2 ++ "  " ++ p.1 ++ "\n"

/-- `create_checksums_file` (`update.py` 371-382): iterate the sorted
directory, emitting a digest line for each covered file; the returned list is
the manifest's full (overwritten) contents. -/
def create_checksums_file (hashFn : List Nat → String)
    (dir : List (String × List Nat)) : List String :=
  (sortByName dir).foldr
    (fun p acc => if coveredFile p.1 then checksumLine hashFn p :: acc else acc) []

theorem foldr_if_cons_eq_filter_map {α β : Type} (c : α → Bool) (f : α → β) :
    ∀ l : List α, l.foldr (fun p acc => if c p then f p :: acc else acc) [] =
      (l.filter c).map f := by
  intro l
  induction l with
  | nil => rfl
  | cons x t ih =>
    simp only [List.foldr_cons, List.filter_cons]
    cases hx : c x
    · simp [hx, ih]
    · simp [hx, ih]

/-- **C9 (amended).** Each run fully overwrites the manifest with one line
`digest ++ "  " ++ filename` per covered file, ordered by filename; the set of
covered files is every regular file whose `pathlib` suffix is `.tgz` or empty
and whose name is not the manifest itself - not, as originally claimed, every
regular file other than the manifest (files such as `VERSION.json` or the log
files are excluded by the suffix filter). -/
theorem create_checksums_file_spec (hashFn : List Nat → String)
    (dir : List (String × List Nat)) :
    ∃ covered : List (String × List Nat),
      create_checksums_file hashFn dir = covered.map (checksumLine hashFn) ∧
      List.Pairwise (fun p q => nameLe p.1 q.1 = true) covered ∧
      List.Perm covered (dir.filter (fun p => coveredFile p.1)) := by
  have htotal : ∀ p q : String × List Nat,
      ((fun p q : String × List Nat => nameLe p.1 q.1) p q ||
       (fun p q : String × List Nat => nameLe p.1 q.1) q p) = true := by
    intro p q
    exact keyGe_total (q.1.toList.map Char.toNat) (p.1.toList.map Char.toNat)
  have htrans : ∀ p q r : String × List Nat,
      (fun p q : String × List Nat => nameLe p.1 q.1) p q = true →
      (fun p q : String × List Nat => nameLe p.1 q.1) q r = true →
      (fun p q : String × List Nat => nameLe p.1 q.1) p r = true := by
    intro p q r hpq hqr
    simp only [nameLe, Bool.not_eq_true'] at hpq hqr ⊢
    exact keyLt_ge_trans hqr hpq
  refine ⟨(sortByName dir).filter (fun p => coveredFile p.1), ?_, ?_, ?_⟩
  · exact foldr_if_cons_eq_filter_map (fun p => coveredFile p.1)
      (checksumLine hashFn) (sortByName dir)
  · exact List.Pairwise.sublist (List.filter_sublist _)
      (pairwise_insSort (fun p q : String × List Nat => nameLe p.1 q.1)
        htotal htrans dir)
  · exact (insSort_perm (fun p q : String × List Nat => nameLe p.1 q.1) dir).filter _

/-- Counterexample to C9 as stated: `VERSION.json` is a regular file in the
output directory and is not the manifest, yet `create_checksums_file` writes
no line at all for a directory containing only it - the covered set is not
"every regular file except the manifest". -/
theorem create_checksums_file_misses_regular_file :
    "VERSION.json" ≠ "SHA256SUMS" ∧
    create_checksums_file (fun _ => "d") [("VERSION.json", [1])] = [] := by
  decide

/-! ## The per-architecture orchestrator (`download_for_architecture`, 384-443)

The network environment bundles the oracles: the digest function, per-URL
attempt outcomes, the compose release-metadata answer, and the raw regex
matches of the rootless index listing per `docker_arch`. -/

/-- The oracles the orchestrator's collaborators consult. -/
structure Env where
  hashFn : List Nat → String
  outcomes : String → Nat → AttemptOutcome
  composeMeta : Option (List Asset)
  rootlessFound : String → List String

/-- `self.docker_url_template.format(arch=..., version=...)` (`update.py` 43). -/
def dockerUrlTemplate (arch version : String) : String :=
  "https://download.docker.com/linux/static/stable/" ++ arch ++ "/docker-" ++
    version ++ ".tgz"

/-- `self.rootless_url_template.format(arch=..., version=...)` (`update.py` 45). -/
def rootlessUrlTemplate (arch version : String) : String :=
  "https://download.docker.com/linux/static/stable/" ++ arch ++
    "/docker-rootless-extras-" ++ version ++ ".tgz"

/-- One entry of `self.arch_mapping` (`update.py` 29-40). -/
structure ArchInfo where
  docker_arch : String
  compose_arch : String
  display_name : String
deriving DecidableEq

/-- `self.arch_mapping` (`update.py` 29-40); `none` models the `KeyError` an
unknown key would raise. -/
def arch_mapping (arch : String) : Option ArchInfo :=
  if arch == "x86_64" then some ⟨"x86_64", "x86_64", "x86_64 (AMD64)"⟩
  else if arch == "aarch64" then some ⟨"aarch64", "aarch64", "ARM64 (aarch64)"⟩
  else none

/-- The rootless-extras slot (`update.py` 414-435): fetch under the resolved
runtime version; on failure consult the rootless listing and, if it is
non-empty, retry exactly once under its newest version; otherwise the slot
fails. -/
def rootless_slot (env : Env) (info : ArchInfo) (arch docker_version : String)
    (st : UState) : Bool × UState :=
  let rootless_url := rootlessUrlTemplate info.docker_arch docker_version
  let pr := download_file env.hashFn (env.outcomes rootless_url) rootless_url
    ("docker-rootless-extras-" ++ docker_version ++ "-" ++ arch ++ ".tgz") 3 st
  if pr.1 then (true, pr.2)
  else
    match list_rootless_versions (env.rootlessFound info.docker_arch) with
    | [] => (false, pr.2)
    | fallback :: _ =>
      let url_fb := rootlessUrlTemplate info.docker_arch fallback
      download_file env.hashFn (env.outcomes url_fb) url_fb
        ("docker-rootless-extras-" ++ fallback ++ "-" ++ arch ++ ".tgz") 3 pr.2

/-- `download_for_architecture` (`update.py` 384-443): the three slots in
order - runtime archive, compose binary (located via the release metadata,
marked executable on success), rootless extras with its one-level fallback -
returning `(success_count, total_count)` and the final state. -/
def download_for_architecture (env : Env) (arch docker_version compose_version : String)
    (st : UState) : Option ((Nat × Nat) × UState) :=
  match arch_mapping arch with
  | none => none
  | some info =>
    let docker_url := dockerUrlTemplate info.docker_arch docker_version
    let d1 := download_file env.hashFn (env.outcomes docker_url) docker_url
      ("docker-" ++ docker_version ++ "-" ++ arch ++ ".tgz") 3 st
    let d2 : Bool × UState :=
      match get_compose_asset_url env.composeMeta compose_version info.compose_arch with
      | some asset_url =>
        let compose_filename := "docker-compose-linux-" ++ compose_version ++ "-" ++ arch
        let dd := download_file env.hashFn (env.outcomes asset_url) asset_url
          compose_filename 3 d1.2
        if dd.1 then
          (true, { dd.2 with trace := dd.2.trace ++ [Event.chmod compose_filename] })
        else (false, dd.2)
      | none => (false, d1.2)
    let d3 := rootless_slot env info arch docker_version d2.2
    some (([d1.1, d2.1, d3.1].count true, [d1.1, d2.1, d3.1].length), d3.2)

/-- The concrete environment of the spec's rootless-fallback scenario: the
rootless fetch for 27.4.1 is not found (404), every other URL downloads fine,
and the rootless listing holds exactly `["27.3.0"]`. -/
def rootlessScenarioEnv : Env where
  hashFn := fun _ => "digest"
  outcomes := fun u => fun _ =>
    if u == rootlessUrlTemplate "x86_64" "27.4.1" then AttemptOutcome.httpErr 404
    else AttemptOutcome.ok [1]
  composeMeta := some [⟨"docker-compose-linux-x86_64", "composeURL"⟩]
  rootlessFound := fun _ => ["27.3.0"]

/-- **C5.** In the rootless-extras slot: when the primary fetch under the
resolved runtime version fails and the rootless listing is non-empty, the
slot's outcome and final state are exactly those of one further fetch, run
from the primary fetch's final state (hence strictly after its failure),
against the newest version of the rootless listing; when the listing is
empty, the slot fails with the primary fetch's state unchanged (no fallback
fetch); when the fallback fetch fails too there is no further tier - the
slot's result is that single fallback fetch's result.  In the spec scenario
(primary 27.4.1 not found, listing `["27.3.0"]`), exactly one network request
hits the fallback URL and the slot succeeds. -/
theorem rootless_slot_fallback (env : Env) (info : ArchInfo)
    (arch docker_version : String) (st : UState)
    (hfail : (download_file env.hashFn
        (env.outcomes (rootlessUrlTemplate info.docker_arch docker_version))
        (rootlessUrlTemplate info.docker_arch docker_version)
        ("docker-rootless-extras-" ++ docker_version ++ "-" ++ arch ++ ".tgz")
        3 st).1 = false) :
    (env.rootlessFound info.docker_arch = [] →
      rootless_slot env info arch docker_version st =
        (false, (download_file env.hashFn
          (env.outcomes (rootlessUrlTemplate info.docker_arch docker_version))
          (rootlessUrlTemplate info.docker_arch docker_version)
          ("docker-rootless-extras-" ++ docker_version ++ "-" ++ arch ++ ".tgz")
          3 st).2)) ∧
    (∀ fb rest,
      list_rootless_versions (env.rootlessFound info.docker_arch) = fb :: rest →
      fb ∈ env.rootlessFound info.docker_arch ∧
      (∀ w ∈ env.rootlessFound info.docker_arch, verLt fb w = false) ∧
      rootless_slot env info arch docker_version st =
        download_file env.hashFn
          (env.outcomes (rootlessUrlTemplate info.docker_arch fb))
          (rootlessUrlTemplate info.docker_arch fb)
          ("docker-rootless-extras-" ++ fb ++ "-" ++ arch ++ ".tgz") 3
          (download_file env.hashFn
            (env.outcomes (rootlessUrlTemplate info.docker_arch docker_version))
            (rootlessUrlTemplate info.docker_arch docker_version)
            ("docker-rootless-extras-" ++ docker_version ++ "-" ++ arch ++ ".tgz")
            3 st).2) ∧
    (download_for_architecture rootlessScenarioEnv "x86_64" "27.4.1" "2.32.4"
        ⟨⟨0, 0, 0, 0⟩, [], []⟩).map
      (fun r => (r.1,
        countNetUrl (rootlessUrlTemplate "x86_64" "27.3.0") r.2.trace,
        countNetUrl (rootlessUrlTemplate "x86_64" "27.4.1") r.2.trace)) =
      some ((3, 3), 1, 1) := by
  refine ⟨?_, ?_, by decide⟩
  · intro hnil
    simp only [rootless_slot, hfail, Bool.false_eq_true, if_false, hnil,
      list_rootless_versions, sortVersionsDesc, List.dedup_nil, insSort]
  · intro fb rest hlist
    have hhead := @sortVersionsDesc_head
      (env.rootlessFound info.docker_arch) fb rest hlist
    refine ⟨hhead.1, hhead.2, ?_⟩
    simp only [rootless_slot, hfail, Bool.false_eq_true, if_false, hlist]

/-- Witness for C5 at the spec scenario: the primary rootless fetch for
27.4.1 is not found, the listing is `["27.3.0"]`, and exactly one fallback
fetch is made against 27.3.0, succeeding. -/
theorem rootless_slot_fallback_witness :
    (download_for_architecture rootlessScenarioEnv "x86_64" "27.4.1" "2.32.4"
        ⟨⟨0, 0, 0, 0⟩, [], []⟩).map
      (fun r => (r.1,
        countNetUrl (rootlessUrlTemplate "x86_64" "27.3.0") r.2.trace,
        countNetUrl (rootlessUrlTemplate "x86_64" "27.4.1") r.2.trace)) =
      some ((3, 3), 1, 1) :=
  (rootless_slot_fallback rootlessScenarioEnv ⟨"x86_64", "x86_64", "x86_64 (AMD64)"⟩
    "x86_64" "27.4.1" ⟨⟨0, 0, 0, 0⟩, [], []⟩ (by decide)).2.2

end DockerUpdater
